import Mathlib

/-!
# Verification of the chromeos_log_parser timeline engine

Shallow embedding of the timeline correlation and segmentation core of
the `chromeos_log_parser` repository, together with proofs of the
published behavioural properties.

Timestamps are modelled as integers (seconds); Python `datetime`
subtraction and comparison translate to integer subtraction and
comparison.  Python lists become Lean lists.  Fallible code returns
`Option`.
-/

namespace LogParser

/-! ## TimelineCorrelator: nearest-timestamp lookup

`ErrorDetector._find_nearest_timestamp` in
`src/analyzers/error_detector.py`.
-/

/-- Python stdlib `bisect.bisect_left` (not repository code), modelled by
its documented result on a sorted list: the leftmost insertion point,
i.e. the least index `i` with `x ≤ a[i]`, or `a.length` when every
element is smaller than `x`. -/
def bisect_left (a : List Int) (x : Int) : Nat :=
  a.findIdx (fun y => x ≤ y)

/-- `ErrorDetector._find_nearest_timestamp(timestamps, target)`:
binary-search the sorted timestamp list and return the index of the
nearest timestamp, `none` on an empty list. -/
def find_nearest_timestamp (timestamps : List Int) (target : Int) : Option Nat :=
  if timestamps.isEmpty then none
  else
    let idx := bisect_left timestamps target
    if idx = 0 then some 0
    else if idx = timestamps.length then some (timestamps.length - 1)
    else
      let before := timestamps.getD (idx - 1) 0
      let after := timestamps.getD idx 0
      if target - before ≤ after - target then some (idx - 1) else some idx

/-! ## Segmenter

`split_entries_by_time_gap` and `split_entries_by_max_duration` in
`src/main.py`.  An entry is any value from which an optional timestamp
can be read (`entry.get('timestamp')`), so the functions are
parameterised by the timestamp projection `tsOf`.
-/

variable {α : Type}

/-- The split condition of `split_entries_by_time_gap`: both neighbours
carry a timestamp and their gap exceeds `maxGap`. -/
def gap_split (tsOf : α → Option Int) (maxGap : Int) (a b : α) : Bool :=
  match tsOf a, tsOf b with
  | some p, some c => maxGap < c - p
  | _, _ => false

/-- Loop of `split_entries_by_time_gap`: `prev` is the previously seen
entry (the last element of `cur`), `cur` the chunk being accumulated. -/
def splitByGapAux (tsOf : α → Option Int) (maxGap : Int) :
    α → List α → List α → List (List α)
  | _, [], cur => [cur]
  | prev, e :: tl, cur =>
    if gap_split tsOf maxGap prev e then
      cur :: splitByGapAux tsOf maxGap e tl [e]
    else splitByGapAux tsOf maxGap e tl (cur ++ [e])

/-- `split_entries_by_time_gap(entries, max_gap_seconds)`: split the
entry list into chunks at consecutive timestamped pairs whose gap
exceeds `maxGap`. -/
def split_entries_by_time_gap (tsOf : α → Option Int) (maxGap : Int)
    (entries : List α) : List (List α) :=
  match entries with
  | [] => []
  | e :: tl => splitByGapAux tsOf maxGap e tl [e]

/-- Loop of `split_entries_by_max_duration`: `cur` is the chunk being
accumulated and `anchor` the timestamp of the first timestamped entry of
`cur` (`chunk_start_time`), if any. -/
def splitByDurationAux (tsOf : α → Option Int) (maxDurSec : Int) :
    List α → List α → Option Int → List (List α)
  | [], cur, _ => if cur.isEmpty then [] else [cur]
  | e :: tl, cur, anchor =>
    match tsOf e with
    | none => splitByDurationAux tsOf maxDurSec tl (cur ++ [e]) anchor
    | some ts =>
      match anchor with
      | none => splitByDurationAux tsOf maxDurSec tl (cur ++ [e]) (some ts)
      | some a =>
        if maxDurSec < ts - a then
          if cur.isEmpty then splitByDurationAux tsOf maxDurSec tl [e] (some ts)
          else cur :: splitByDurationAux tsOf maxDurSec tl [e] (some ts)
        else splitByDurationAux tsOf maxDurSec tl (cur ++ [e]) (some a)

/-- `split_entries_by_max_duration(entries, max_duration_minutes)`: split
the entry list into chunks covering at most `max_duration_minutes * 60`
seconds each, anchored at the first timestamped entry of each chunk. -/
def split_entries_by_max_duration (tsOf : α → Option Int)
    (maxDurMin : Int) (entries : List α) : List (List α) :=
  match entries with
  | [] => []
  | _ => splitByDurationAux tsOf (maxDurMin * 60) entries [] none

/-- The invariant carried by the duration loop: with no anchor the
current chunk has no timestamped entry; with anchor `a`, `a` is the
first timestamp of the chunk and every timestamp of the chunk is within
`maxDurSec` of it. -/
def durInv (tsOf : α → Option Int) (maxDurSec : Int)
    (cur : List α) (anchor : Option Int) : Prop :=
  match anchor with
  | none => cur.filterMap tsOf = []
  | some a =>
      (cur.filterMap tsOf).head? = some a ∧
      ∀ t ∈ cur.filterMap tsOf, t - a ≤ maxDurSec

/-- A chunk is duration-bounded when its span — last timestamp minus
first timestamp, ignoring timestamp-less entries — is at most
`maxDurSec`. -/
def durBounded (tsOf : α → Option Int) (maxDurSec : Int)
    (c : List α) : Prop :=
  ∀ h : c.filterMap tsOf ≠ [],
    (c.filterMap tsOf).getLast h - (c.filterMap tsOf).head h ≤ maxDurSec

/-! ## StatsEngine: spike detection

`MetricsAnalyzer.detect_spikes` in `src/analyzers/metrics_analyzer.py`.
Metric values are Python floats; they are modelled exactly as rationals.
Python's `statistics.stdev` (stdlib, an irrational square root) is kept
abstract as a function parameter `stdev`; `statistics.mean` is modelled
exactly as sum over count.
-/

/-- One vmlog entry as seen by `detect_spikes`: the value of the metric
under analysis (`entry.get(metric)`), if present, and the optional
timestamp.  The remaining fields of the entry dict play no role. -/
structure VmEntry where
  metricVal : Option Rat
  timestamp : Option Int
deriving DecidableEq, Repr

/-- One spike record emitted by `detect_spikes` (the `metric` name field,
a constant string, is omitted). -/
structure Spike where
  index : Nat
  timestamp : Option Int
  value : Rat
  spMean : Rat
  deviation : Rat
  direction : String
deriving DecidableEq, Repr

/-- Python stdlib `statistics.mean`: sum divided by count. -/
def pymean (vals : List Rat) : Rat :=
  vals.sum / (vals.length : Rat)

/-- The `values` comprehension of `detect_spikes`: `(i, entry[metric],
entry['timestamp'])` for the entries carrying the metric. -/
def spikeValues (entries : List VmEntry) : List (Nat × Rat × Option Int) :=
  entries.enum.filterMap (fun p =>
    match p.2.metricVal with
    | some v => some (p.1, v, p.2.timestamp)
    | none => none)

/-- `MetricsAnalyzer.detect_spikes(vmlog_data, metric)`, with the
configured `spike_threshold` and the stdlib `statistics.stdev` function
abstracted as parameters. -/
def detect_spikes (stdev : List Rat → Rat) (spike_threshold : Rat)
    (entries : List VmEntry) : List Spike :=
  let values := spikeValues entries
  if values.length < 10 then []
  else
    let metric_values := values.map (fun t => t.2.1)
    let m := pymean metric_values
    let s := if 2 ≤ metric_values.length then stdev metric_values else 0
    if s = 0 then []
    else
      let upper := m + spike_threshold * s
      let lower := m - spike_threshold * s
      values.filterMap (fun t =>
        if upper < t.2.1 ∨ t.2.1 < lower then
          some { index := t.1, timestamp := t.2.2, value := t.2.1,
                 spMean := m,
                 deviation := if s ≠ 0 then |t.2.1 - m| / s else 0,
                 direction := if m < t.2.1 then "high" else "low" }
        else none)

/-- The sub-list of values carrying the metric, without indices: the
specification-side view of the sample population. -/
def metricValuesOf (entries : List VmEntry) : List Rat :=
  entries.filterMap (·.metricVal)

/-! ## TimelineCorrelator: event-to-segment filtering

The `segment_errors` filter in `main` (`src/main.py`) and
`SystemLogParser.map_to_vmlog_timeline` in
`src/parsers/system_log_parser.py`.
-/

/-- One error record of `ErrorDetector` (the `context` list is
omitted). -/
structure ErrorRec where
  source : String
  line_number : Nat
  severity : Nat
  etype : String
  timestamp : Option Int
  message : String
deriving DecidableEq, Repr

/-- One categorized system-log event (reporting-only fields — `log_type`,
`color`, `source`, `raw_line` — are omitted). -/
structure SysEvent where
  timestamp : Option Int
  category : String
  level : Nat
  message : String
deriving DecidableEq, Repr

/-- The `segment_errors` filter of `main` (src/main.py): keep the errors
of severity at least 3 whose timestamp is present and lies within the
segment window extended by the fixed 30-second buffer. -/
def segment_errors_filter (errors : List ErrorRec)
    (segStart segEnd : Int) : List ErrorRec :=
  errors.filter (fun e =>
    decide (3 ≤ e.severity) &&
    match e.timestamp with
    | some t => decide (segStart - 30 ≤ t) && decide (t ≤ segEnd + 30)
    | none => false)

/-- `SystemLogParser.map_to_vmlog_timeline(events, vmlog_entries)`: with
nonempty inputs and at least one vmlog timestamp, keep the timestamped
events within `[min - 5min, max + 5min]`; otherwise return the events
unchanged.  `vmlogEntries` is the list of the vmlog entries' optional
timestamps. -/
def map_to_vmlog_timeline (events : List SysEvent)
    (vmlogEntries : List (Option Int)) : List SysEvent :=
  if vmlogEntries.isEmpty || events.isEmpty then events
  else
    let vmlogTimestamps := vmlogEntries.filterMap id
    if vmlogTimestamps.isEmpty then events
    else
      match vmlogTimestamps.min?, vmlogTimestamps.max? with
      | some lo, some hi =>
          events.filter (fun ev =>
            match ev.timestamp with
            | some t => decide (lo - 300 ≤ t) && decide (t ≤ hi + 300)
            | none => false)
      | _, _ => events

/-! ## EventStreamParser: classification, deduplication, ordering

`SystemLogParser.categorize_event` and `SystemLogParser.parse_content`
in `src/parsers/system_log_parser.py`, and `ErrorDetector.scan_logs` in
`src/analyzers/error_detector.py`.  A dialect's regex patterns are
abstracted as Boolean matchers on the message text.
-/

/-- One `(pattern, category, level, color)` triple of a dialect's
ordered pattern table. -/
structure PatternTriple where
  matcher : String → Bool
  category : String
  level : Nat
  color : String

/-- Message truncation
`message[:bound] + ('...' if len(message) > bound else '')`. -/
def truncate_message (bound : Nat) (msg : String) : String :=
  if bound < msg.length then msg.take bound ++ "..." else msg

/-- `SystemLogParser.categorize_event(parsed_line, log_type)`: walk the
dialect's pattern list in order, skip the triples below the configured
`min_level`, and emit an event from the first remaining triple whose
pattern matches the message; the message is truncated to 100 characters
at event construction. -/
def categorize_event (min_level : Nat) (patterns : List PatternTriple)
    (timestamp : Option Int) (message : String) : Option SysEvent :=
  match patterns with
  | [] => none
  | p :: rest =>
    if p.level < min_level then
      categorize_event min_level rest timestamp message
    else if p.matcher message then
      some { timestamp := timestamp, category := p.category,
             level := p.level, message := truncate_message 100 message }
    else categorize_event min_level rest timestamp message

/-- The deduplication key of one parse call:
`(timestamp.isoformat() if timestamp else '', message)`, modelled as the
pair of the optional timestamp and the stored (truncated) message. -/
def event_key (ev : SysEvent) : Option Int × String :=
  (ev.timestamp, ev.message)

/-- Loop of `SystemLogParser.parse_content`: classify each line and keep
an event only when its key has not been seen before. -/
def parseContentAux (classify : String → Option SysEvent) :
    List String → List (Option Int × String) → List SysEvent
  | [], _ => []
  | line :: rest, seen =>
    match classify line with
    | none => parseContentAux classify rest seen
    | some ev =>
      if event_key ev ∈ seen then parseContentAux classify rest seen
      else ev :: parseContentAux classify rest (event_key ev :: seen)

/-- `SystemLogParser.parse_content(content, log_type)`: classify each
line (`parse_line` followed by `categorize_event`, abstracted as
`classify`) and deduplicate by `(timestamp, message)`. -/
def parse_content (classify : String → Option SysEvent)
    (lines : List String) : List SysEvent :=
  parseContentAux classify lines []

/-- The sort key order of `scan_logs`:
`(timestamp is None, timestamp or datetime.max)`, compared
lexicographically (an absent timestamp sorts after every present one). -/
def err_le (a b : ErrorRec) : Bool :=
  match a.timestamp, b.timestamp with
  | some x, some y => x ≤ y
  | some _, none => true
  | none, some _ => false
  | none, none => true

/-- `ErrorDetector.scan_logs(logs)`: concatenate the per-log scans (the
single-log scanner is abstracted as `scanSingle`) and sort by the key
`(timestamp is None, timestamp or datetime.max)`; Python's `list.sort`
is modelled by `mergeSort` over the key order `err_le`. -/
def scan_logs (scanSingle : String → String → List ErrorRec)
    (logs : List (String × String)) : List ErrorRec :=
  ((logs.map (fun p => scanSingle p.1 p.2)).flatten).mergeSort err_le

/-! ## TimestampExtractor

`VmlogParser._parse_timestamp` in `src/parsers/vmlog_parser.py`,
`ErrorDetector._extract_timestamp` in `src/analyzers/error_detector.py`
and `CrosEcParser._extract_timestamp` in
`src/parsers/cros_ec_parser.py`.  Lines are modelled as character
lists; each regex is modelled as an explicit leftmost-match scanner
over them.
-/

/-- A wall-clock timestamp as produced by Python's `datetime`
constructor. -/
structure DateTime where
  year : Nat
  month : Nat
  day : Nat
  hour : Nat
  minute : Nat
  second : Nat
deriving DecidableEq, Repr

/-- Gregorian leap-year rule, as used by Python's `datetime`. -/
def isLeapYear (y : Nat) : Bool :=
  y % 4 == 0 && (y % 100 != 0 || y % 400 == 0)

/-- Days in a month, as validated by Python's `datetime`. -/
def daysInMonth (y m : Nat) : Nat :=
  if m = 2 then (if isLeapYear y then 29 else 28)
  else if m = 4 ∨ m = 6 ∨ m = 9 ∨ m = 11 then 30
  else 31

/-- Field validation of Python's `datetime(y, m, d, hh, mm, ss)`. -/
def datetime_valid (y m d hh mm ss : Nat) : Bool :=
  1 ≤ y && y ≤ 9999 && 1 ≤ m && m ≤ 12 && 1 ≤ d && d ≤ daysInMonth y m &&
  hh ≤ 23 && mm ≤ 59 && ss ≤ 59

/-- Python's `datetime` constructor (stdlib): returns the timestamp or
raises `ValueError` on an out-of-range field. -/
def datetime_mk (y m d hh mm ss : Nat) : Except Unit DateTime :=
  if datetime_valid y m d hh mm ss then .ok ⟨y, m, d, hh, mm, ss⟩
  else .error ()

/-- Numeric value of a digit string, `int(...)` on an all-digit
field. -/
def digitsToNat (cs : List Char) : Nat :=
  cs.foldl (fun acc c => 10 * acc + (c.toNat - '0'.toNat)) 0

/-- Match a fixed-length character-class shape against a prefix,
returning the matched characters. -/
def matchShapeAt : List (Char → Bool) → List Char → Option (List Char)
  | [], _ => some []
  | _ :: _, [] => none
  | p :: ps, c :: cs =>
    if p c then (matchShapeAt ps cs).map (fun r => c :: r) else none

/-- Leftmost-match search: try a positional matcher at every suffix. -/
def searchPos {β : Type} (m : List Char → Option β) :
    List Char → Option β
  | [] => m []
  | c :: cs =>
    match m (c :: cs) with
    | some r => some r
    | none => searchPos m cs

/-- Predicate for one literal character. -/
def chC (c : Char) : Char → Bool := fun x => x == c

/-- The 19-character core shape of the ISO pattern
`(\d{4}-\d{2}-\d{2}T\d{2}:\d{2}:\d{2})(?:\.\d+)?Z?` (group 1; the
optional fraction and `Z` suffix never affect whether group 1 matches). -/
def isoShape : List (Char → Bool) :=
  [Char.isDigit, Char.isDigit, Char.isDigit, Char.isDigit, chC '-',
   Char.isDigit, Char.isDigit, chC '-', Char.isDigit, Char.isDigit,
   chC 'T', Char.isDigit, Char.isDigit, chC ':', Char.isDigit,
   Char.isDigit, chC ':', Char.isDigit, Char.isDigit]

/-- `strptime(ts, '%Y-%m-%dT%H:%M:%S')` on the 19-character ISO group
(also `datetime.fromisoformat` in `CrosEcParser`): split the digit
fields and validate. -/
def parse_iso (g : List Char) : Except Unit (Option DateTime) :=
  (datetime_mk (digitsToNat (g.take 4)) (digitsToNat ((g.drop 5).take 2))
    (digitsToNat ((g.drop 8).take 2)) (digitsToNat ((g.drop 11).take 2))
    (digitsToNat ((g.drop 14).take 2))
    (digitsToNat ((g.drop 17).take 2))).map some

/-- Python's `\s` class: space, tab, newline, carriage return, vertical
tab, form feed. -/
def isWS (c : Char) : Bool :=
  c == ' ' || c == '\t' || c == '\n' || c == '\r' || c == '\x0b' ||
    c == '\x0c'

/-- Greedily drop whitespace. -/
def eatWSgreedy : List Char → List Char
  | [] => []
  | c :: rest => if isWS c then eatWSgreedy rest else c :: rest

/-- `\s+`: require at least one whitespace character, then consume
greedily (no backtracking is needed: the following class is always
disjoint from whitespace). -/
def eatWS1 : List Char → Option (List Char)
  | [] => none
  | c :: rest => if isWS c then some (eatWSgreedy rest) else none

def isUpper (c : Char) : Bool := 'A' ≤ c && c ≤ 'Z'

def isLower (c : Char) : Bool := 'a' ≤ c && c ≤ 'z'

/-- Positional matcher for the syslog pattern
`([A-Z][a-z]{2}\s+\d{1,2}\s+\d{2}:\d{2}:\d{2})`, returning the month
name, day digits and the three time fields.  `\d{1,2}` is greedy with
the regex's backtracking: two digits are taken when whitespace follows,
else one. -/
def syslogMatchAt (cs : List Char) :
    Option (List Char × List Char × List Char × List Char × List Char) :=
  match cs with
  | u :: l1 :: l2 :: rest =>
    if isUpper u && isLower l1 && isLower l2 then
      match eatWS1 rest with
      | none => none
      | some rest2 =>
        match rest2 with
        | d1 :: d2 :: rest3 =>
          if d1.isDigit && d2.isDigit then
            match eatWS1 rest3 with
            | some rest4 => syslogTimeAt [u, l1, l2] [d1, d2] rest4
            | none => none
          else if d1.isDigit then
            match eatWS1 (d2 :: rest3) with
            | some rest4 => syslogTimeAt [u, l1, l2] [d1] rest4
            | none => none
          else none
        | _ => none
    else none
  | _ => none
where
  /-- The trailing `\d{2}:\d{2}:\d{2}` of the syslog pattern. -/
  syslogTimeAt (mon day : List Char) (cs : List Char) :
      Option (List Char × List Char × List Char × List Char × List Char) :=
    match cs with
    | h1 :: h2 :: x :: m1 :: m2 :: y :: s1 :: s2 :: _ =>
      if h1.isDigit && h2.isDigit && x == ':' && m1.isDigit && m2.isDigit &&
          y == ':' && s1.isDigit && s2.isDigit then
        some (mon, day, [h1, h2], [m1, m2], [s1, s2])
      else none
    | _ => none

/-- `MONTH_MAP.get(name, 1)`: month-name lookup with default 1. -/
def month_map (s : List Char) : Nat :=
  if s = "Jan".toList then 1 else if s = "Feb".toList then 2
  else if s = "Mar".toList then 3 else if s = "Apr".toList then 4
  else if s = "May".toList then 5 else if s = "Jun".toList then 6
  else if s = "Jul".toList then 7 else if s = "Aug".toList then 8
  else if s = "Sep".toList then 9 else if s = "Oct".toList then 10
  else if s = "Nov".toList then 11 else if s = "Dec".toList then 12
  else 1

/-- The syslog branch of `_parse_timestamp`: month-name lookup, numeric
fields, `datetime` construction with the reference year. -/
def parse_syslog (reference_year : Nat)
    (mon day hh mm ss : List Char) : Except Unit (Option DateTime) :=
  (datetime_mk reference_year (month_map mon) (digitsToNat day)
    (digitsToNat hh) (digitsToNat mm) (digitsToNat ss)).map some

/-- Split off a maximal run of digits. -/
def takeDigitsGreedy : List Char → List Char × List Char
  | [] => ([], [])
  | c :: rest =>
    if c.isDigit then
      let p := takeDigitsGreedy rest
      (c :: p.1, p.2)
    else ([], c :: rest)

/-- `\d+`: at least one digit, taken greedily. -/
def takeDigits1 (cs : List Char) : Option (List Char × List Char) :=
  match cs with
  | c :: rest =>
    if c.isDigit then
      let p := takeDigitsGreedy rest
      some (c :: p.1, p.2)
    else none
  | [] => none

/-- Positional matcher for the kernel-uptime pattern
`\[(\d+\.\d+)\]` of `ErrorDetector`. -/
def kernelMatchAt (cs : List Char) : Bool :=
  match cs with
  | '[' :: rest =>
    match takeDigits1 rest with
    | some (_, '.' :: rest2) =>
      match takeDigits1 rest2 with
      | some (_, ']' :: _) => true
      | _ => false
    | _ => false
  | _ => false

/-- Positional matcher for the kernel-uptime pattern `\[(\d+\.\d+)` of
`CrosEcParser` (no closing bracket required). -/
def kernelUptimeMatchAt (cs : List Char) : Bool :=
  match cs with
  | '[' :: rest =>
    match takeDigits1 rest with
    | some (_, '.' :: rest2) => (takeDigits1 rest2).isSome
    | _ => false
  | _ => false

/-- Search for a Boolean positional matcher at every suffix. -/
def searchBool (m : List Char → Bool) : List Char → Bool
  | [] => m []
  | c :: cs => m (c :: cs) || searchBool m cs

/-- Positional matcher for the vmlog pattern `\[(\d{4})/(\d{6})\]`,
returning the two digit groups. -/
def vmlog_match (cs : List Char) : Option (List Char × List Char) :=
  match cs with
  | '[' :: a :: b :: c :: d :: '/' :: e :: f :: g :: h :: i :: j :: ']' :: _ =>
    if a.isDigit && b.isDigit && c.isDigit && d.isDigit && e.isDigit &&
        f.isDigit && g.isDigit && h.isDigit && i.isDigit && j.isDigit then
      some ([a, b, c, d], [e, f, g, h, i, j])
    else none
  | _ => none

/-- Positional matcher for the chrome pattern
`(\d{4})/(\d{6})\.(\d+)`, returning the two leading digit groups. -/
def chromeMatchAt (cs : List Char) : Option (List Char × List Char) :=
  match cs with
  | a :: b :: c :: d :: '/' :: e :: f :: g :: h :: i :: j :: '.' :: k :: _ =>
    if a.isDigit && b.isDigit && c.isDigit && d.isDigit && e.isDigit &&
        f.isDigit && g.isDigit && h.isDigit && i.isDigit && j.isDigit &&
        k.isDigit then
      some ([a, b, c, d], [e, f, g, h, i, j])
    else none
  | _ => none

/-- The vmlog/chrome branch of `_parse_timestamp`: split MMDD and
HHMMSS and build a `datetime` with the reference year. -/
def parse_vmlog_fields (reference_year : Nat) (dp tp : List Char) :
    Except Unit (Option DateTime) :=
  (datetime_mk reference_year (digitsToNat (dp.take 2))
    (digitsToNat (dp.drop 2)) (digitsToNat (tp.take 2))
    (digitsToNat ((tp.drop 2).take 2))
    (digitsToNat (tp.drop 4))).map some

/-- `VmlogParser._parse_timestamp(time_str)`: anchored match of
`\[(\d{4})/(\d{6})\]` (`re.match`), digit decomposition, `datetime`
construction with the reference year; `none` on match or construction
failure. -/
def vmlog_parse_timestamp (reference_year : Nat)
    (time_str : List Char) : Option DateTime :=
  match vmlog_match time_str with
  | none => none
  | some (dp, tp) =>
    match parse_vmlog_fields reference_year dp tp with
    | .ok v => v
    | .error _ => none

/-- Patterns 5 of `ErrorDetector` (chrome), the last tried: on a match,
a raised `ValueError` leaves no further pattern, so the extraction
returns `none`. -/
def ed_try_chrome (y : Nat) (line : List Char) : Option DateTime :=
  match searchPos chromeMatchAt line with
  | some (dp, tp) =>
    match parse_vmlog_fields y dp tp with
    | .ok v => v
    | .error _ => none
  | none => none

/-- Pattern 4 of `ErrorDetector` (vmlog), falling through to chrome. -/
def ed_try_vmlog (y : Nat) (line : List Char) : Option DateTime :=
  match searchPos vmlog_match line with
  | some (dp, tp) =>
    match parse_vmlog_fields y dp tp with
    | .ok v => v
    | .error _ => ed_try_chrome y line
  | none => ed_try_chrome y line

/-- Pattern 3 of `ErrorDetector` (kernel uptime): on a match the parse
branch returns `None` without raising, and the extraction returns it. -/
def ed_try_kernel (y : Nat) (line : List Char) : Option DateTime :=
  if searchBool kernelMatchAt line then none else ed_try_vmlog y line

/-- Pattern 2 of `ErrorDetector` (syslog), falling through to kernel. -/
def ed_try_syslog (y : Nat) (line : List Char) : Option DateTime :=
  match searchPos syslogMatchAt line with
  | some (mon, day, hh, mm, ss) =>
    match parse_syslog y mon day hh mm ss with
    | .ok v => v
    | .error _ => ed_try_kernel y line
  | none => ed_try_kernel y line

/-- `ErrorDetector._extract_timestamp(line)`: try the five timestamp
patterns in order; a parse failure (`ValueError`) falls through to the
next pattern, a parsed `None` (kernel uptime) is returned as is. -/
def ed_extract_timestamp (y : Nat) (line : List Char) : Option DateTime :=
  match searchPos (matchShapeAt isoShape) line with
  | some g =>
    match parse_iso g with
    | .ok v => v
    | .error _ => ed_try_syslog y line
  | none => ed_try_syslog y line

/-- Pattern 3 of `CrosEcParser` (kernel uptime, the last tried): a match
parses to `None`; no match exhausts the pattern list — either way the
extraction yields `none`. -/
def ec_try_kernel_uptime (line : List Char) : Option DateTime :=
  if searchBool kernelUptimeMatchAt line then none else none

/-- Pattern 2 of `CrosEcParser` (syslog). -/
def ec_try_syslog (y : Nat) (line : List Char) : Option DateTime :=
  match searchPos syslogMatchAt line with
  | some (mon, day, hh, mm, ss) =>
    match parse_syslog y mon day hh mm ss with
    | .ok v => v
    | .error _ => ec_try_kernel_uptime line
  | none => ec_try_kernel_uptime line

/-- `CrosEcParser._extract_timestamp(line)`: ISO, then syslog, then
kernel uptime. -/
def cros_ec_extract_timestamp (y : Nat) (line : List Char) :
    Option DateTime :=
  match searchPos (matchShapeAt isoShape) line with
  | some g =>
    match parse_iso g with
    | .ok v => v
    | .error _ => ec_try_syslog y line
  | none => ec_try_syslog y line

theorem bisect_left_eq_zero (a : List Int) (x : Int) (h : a ≠ [])
    (hx : x ≤ a.head h) : bisect_left a x = 0 := by
  cases a with
  | nil => exact absurd rfl h
  | cons b t =>
    rw [List.head_cons] at hx
    simp [bisect_left, List.findIdx_cons, hx]

theorem bisect_left_eq_length (a : List Int) (x : Int)
    (hall : ∀ y ∈ a, y < x) : bisect_left a x = a.length := by
  induction a with
  | nil => rfl
  | cons b t ih =>
    have hb : ¬ (x ≤ b) := not_le.mpr (hall b (by simp))
    have ht : bisect_left t x = t.length := ih (fun y hy => hall y (by simp [hy]))
    simp only [bisect_left, List.findIdx_cons, List.length_cons] at *
    simp [hb, ht]

theorem pairwise_le_getLast {l : List Int} (hs : List.Pairwise (· ≤ ·) l)
    (y : Int) (hy : y ∈ l) (h : l ≠ []) : y ≤ l.getLast h := by
  induction l with
  | nil => exact absurd rfl h
  | cons a t ih =>
    rcases List.pairwise_cons.mp hs with ⟨ha, ht⟩
    cases t with
    | nil =>
      simp at hy
      simp [hy]
    | cons b u =>
      rw [List.getLast_cons (by simp)]
      rcases List.mem_cons.mp hy with rfl | hyt
      · exact ha _ (List.getLast_mem (by simp))
      · exact ih ht hyt (by simp)

theorem find_nearest_timestamp_none_iff (ts : List Int) (t : Int) :
    find_nearest_timestamp ts t = none ↔ ts = [] := by
  cases ts with
  | nil => simp [find_nearest_timestamp]
  | cons a l =>
    constructor
    · intro h
      simp only [find_nearest_timestamp, List.isEmpty_cons, Bool.false_eq_true,
        if_false] at h
      split_ifs at h
    · intro h
      exact absurd h (List.cons_ne_nil a l)

/-- C1 (amended): over a sorted timestamp list, nearest-timestamp lookup
returns `none` exactly on the empty list; returns index `0` whenever the
target is at most the first timestamp; returns the last index whenever
the target is strictly greater than the last timestamp; and when the
binary insertion point `i` is interior, returns `i - 1` when
`(target - before) ≤ (after - target)` and `i` otherwise. -/
theorem find_nearest_timestamp_spec (ts : List Int) (t : Int)
    (hs : List.Pairwise (· ≤ ·) ts) :
    (find_nearest_timestamp ts t = none ↔ ts = []) ∧
    (∀ h : ts ≠ [], t ≤ ts.head h → find_nearest_timestamp ts t = some 0) ∧
    (∀ h : ts ≠ [], ts.getLast h < t →
        find_nearest_timestamp ts t = some (ts.length - 1)) ∧
    (∀ i, bisect_left ts t = i → 0 < i → i < ts.length →
        find_nearest_timestamp ts t =
          some (if t - ts.getD (i - 1) 0 ≤ ts.getD i 0 - t then i - 1 else i)) := by
  refine ⟨find_nearest_timestamp_none_iff ts t, ?_, ?_, ?_⟩
  · intro h ht
    have h0 := bisect_left_eq_zero ts t h ht
    simp [find_nearest_timestamp, h0, List.isEmpty_eq_false.mpr h]
  · intro h hlast
    have hall : ∀ y ∈ ts, y < t :=
      fun y hy => lt_of_le_of_lt (pairwise_le_getLast hs y hy h) hlast
    have hlen := bisect_left_eq_length ts t hall
    have hne : ts.length ≠ 0 := fun e => h (List.length_eq_zero.mp e)
    simp [find_nearest_timestamp, hlen, List.isEmpty_eq_false.mpr h, hne]
  · intro i hbi h0 hlen
    have hne : ts ≠ [] := by
      intro e; subst e; simp at hlen
    have hiz : ¬ (i = 0) := Nat.pos_iff_ne_zero.mp h0
    have hil : ¬ (i = ts.length) := Nat.ne_of_lt hlen
    simp only [find_nearest_timestamp, hbi]
    simp only [List.isEmpty_eq_false.mpr hne, Bool.false_eq_true, if_false]
    rw [if_neg hiz, if_neg hil]
    split <;> rename_i hc <;> simp [hc]

/-- C1 witness: on the sorted list `[1, 5]` with target `1` the lookup
returns index `0`, by the second clause of the amended specification. -/
theorem find_nearest_timestamp_spec_witness :
    find_nearest_timestamp [1, 5] 1 = some 0 :=
  (find_nearest_timestamp_spec [1, 5] 1 (by decide)).2.1 (by decide) (by decide)

/-- C1 counterexample: on `ts = [3, 5, 5]` with `t = 5` we have
`t ≥ ts.getLast` yet the code returns index `1`, not `len - 1 = 2`,
because the leftmost insertion point is interior and the tie-break picks
the later of indices `0` and `1`. -/
theorem find_nearest_timestamp_claim_cex :
    ((5 : Int) ≥ ([3, 5, 5] : List Int).getLast (by decide)) ∧
    find_nearest_timestamp [3, 5, 5] 5 = some 1 ∧
    ¬ find_nearest_timestamp [3, 5, 5] 5 =
        some (([3, 5, 5] : List Int).length - 1) := by decide

theorem splitByGapAux_spec (tsOf : α → Option Int) (maxGap : Int) :
    ∀ (tl : List α) (prev : α) (cur : List α) (hcur : cur ≠ []),
      cur.getLast hcur = prev →
      cur.Chain' (fun a b => gap_split tsOf maxGap a b = false) →
      (splitByGapAux tsOf maxGap prev tl cur).flatten = cur ++ tl ∧
      (∀ c ∈ splitByGapAux tsOf maxGap prev tl cur, c ≠ []) ∧
      (∀ c ∈ splitByGapAux tsOf maxGap prev tl cur,
        c.Chain' (fun a b => gap_split tsOf maxGap a b = false)) ∧
      (splitByGapAux tsOf maxGap prev tl cur).Chain'
        (fun c₁ c₂ => ∀ h₁ : c₁ ≠ [], ∀ h₂ : c₂ ≠ [],
          gap_split tsOf maxGap (c₁.getLast h₁) (c₂.head h₂) = true) ∧
      ∀ h : splitByGapAux tsOf maxGap prev tl cur ≠ [],
        ∀ hh : (splitByGapAux tsOf maxGap prev tl cur).head h ≠ [],
          ((splitByGapAux tsOf maxGap prev tl cur).head h).head hh =
            cur.head hcur := by
  intro tl
  induction tl with
  | nil =>
    intro prev cur hcur hlast hchain
    refine ⟨by simp [splitByGapAux], ?_, ?_, ?_, ?_⟩
    · intro c hc
      simp [splitByGapAux] at hc
      subst hc; exact hcur
    · intro c hc
      simp [splitByGapAux] at hc
      subst hc; exact hchain
    · simp [splitByGapAux]
    · intro h hh
      rfl
  | cons e tl ih =>
    intro prev cur hcur hlast hchain
    rcases hsplit : gap_split tsOf maxGap prev e with _ | _
    · -- no split: the entry is appended to the current chunk
      have hred : splitByGapAux tsOf maxGap prev (e :: tl) cur =
          splitByGapAux tsOf maxGap e tl (cur ++ [e]) := by
        simp [splitByGapAux, hsplit]
      have hcur' : cur ++ [e] ≠ [] := by simp
      have hlast' : (cur ++ [e]).getLast hcur' = e := by
        simp [List.getLast_append]
      have hchain' : (cur ++ [e]).Chain'
          (fun a b => gap_split tsOf maxGap a b = false) := by
        rw [List.chain'_append]
        refine ⟨hchain, List.chain'_singleton _, ?_⟩
        intro x hx y hy
        rw [List.getLast?_eq_getLast cur hcur] at hx
        simp at hx hy
        subst hx; subst hy
        rw [hlast]
        exact hsplit
      have := ih e (cur ++ [e]) hcur' hlast' hchain'
      rw [hred]
      refine ⟨by simp [this.1], this.2.1, this.2.2.1, this.2.2.2.1, ?_⟩
      intro h hh
      rw [this.2.2.2.2 h hh]
      cases cur with
      | nil => exact absurd rfl hcur
      | cons a u => simp
    · -- split: close the current chunk and start a new one at `e`
      have hred : splitByGapAux tsOf maxGap prev (e :: tl) cur =
          cur :: splitByGapAux tsOf maxGap e tl [e] := by
        simp [splitByGapAux, hsplit]
      rw [hred]
      have hone : ([e] : List α) ≠ [] := by simp
      have := ih e [e] hone (by simp) (List.chain'_singleton _)
      obtain ⟨hjoin, hne, hin, hbd, hhead⟩ := this
      have hrne : splitByGapAux tsOf maxGap e tl [e] ≠ [] := by
        intro hemp
        rw [hemp] at hjoin
        simp at hjoin
      refine ⟨by simp [hjoin], ?_, ?_, ?_, ?_⟩
      · intro c hc
        rcases List.mem_cons.mp hc with rfl | hc
        · exact hcur
        · exact hne c hc
      · intro c hc
        rcases List.mem_cons.mp hc with rfl | hc
        · exact hchain
        · exact hin c hc
      · rw [List.chain'_cons']
        refine ⟨?_, hbd⟩
        intro c hc h₁ h₂
        have hch : c = (splitByGapAux tsOf maxGap e tl [e]).head hrne := by
          rw [List.head?_eq_head hrne] at hc
          exact (Option.mem_some_iff.mp hc).symm
        subst hch
        have hl2 : cur.getLast h₁ = prev := hlast
        have hhd :
            ((splitByGapAux tsOf maxGap e tl [e]).head hrne).head h₂ = e :=
          hhead hrne h₂
        rw [hl2, hhd]
        exact hsplit
      · intro h hh
        simp

/-- C2: gap segmentation partitions its input.  Empty input yields the
empty chunk list; the chunks concatenate back to the input; no chunk is
empty; inside a chunk no consecutive pair satisfies the gap condition;
and between consecutive chunks the boundary pair always does. -/
theorem split_entries_by_time_gap_spec (tsOf : α → Option Int)
    (maxGap : Int) (entries : List α) :
    (split_entries_by_time_gap tsOf maxGap ([] : List α) = []) ∧
    (split_entries_by_time_gap tsOf maxGap entries).flatten = entries ∧
    (∀ c ∈ split_entries_by_time_gap tsOf maxGap entries, c ≠ []) ∧
    (∀ c ∈ split_entries_by_time_gap tsOf maxGap entries,
      c.Chain' (fun a b => gap_split tsOf maxGap a b = false)) ∧
    (split_entries_by_time_gap tsOf maxGap entries).Chain'
      (fun c₁ c₂ => ∀ h₁ : c₁ ≠ [], ∀ h₂ : c₂ ≠ [],
        gap_split tsOf maxGap (c₁.getLast h₁) (c₂.head h₂) = true) := by
  refine ⟨rfl, ?_⟩
  cases entries with
  | nil => simp [split_entries_by_time_gap]
  | cons e tl =>
    have := splitByGapAux_spec tsOf maxGap tl e [e] (by simp) (by simp)
      (List.chain'_singleton _)
    exact ⟨by simpa [split_entries_by_time_gap] using this.1,
      this.2.1, this.2.2.1, this.2.2.2.1⟩

/-- C2 witness: the documented scenario — two samples one second apart
then one sample twenty seconds later with a five-second gap ceiling —
concatenates back to the input (and indeed splits as `[[0, 1], [20]]`). -/
theorem split_entries_by_time_gap_witness :
    (split_entries_by_time_gap (fun x : Option Int => x) 5
        [some 0, some 1, some 20]).flatten = [some 0, some 1, some 20] ∧
      split_entries_by_time_gap (fun x : Option Int => x) 5
        [some 0, some 1, some 20] = [[some 0, some 1], [some 20]] :=
  ⟨(split_entries_by_time_gap_spec (fun x : Option Int => x) 5
      [some 0, some 1, some 20]).2.1, by decide⟩

theorem durInv_emit {tsOf : α → Option Int} {maxDurSec : Int}
    {cur : List α} {anchor : Option Int}
    (hinv : durInv tsOf maxDurSec cur anchor) :
    durBounded tsOf maxDurSec cur := by
  intro h
  cases anchor with
  | none => exact absurd hinv h
  | some a =>
    obtain ⟨hhead, hall⟩ := hinv
    have h1 : (cur.filterMap tsOf).head h = a := by
      have := List.head?_eq_head h
      rw [this] at hhead
      exact Option.some_injective _ hhead
    have h2 := hall _ (List.getLast_mem h)
    omega

theorem splitByDurationAux_spec (tsOf : α → Option Int) (maxDurSec : Int)
    (hnn : 0 ≤ maxDurSec) :
    ∀ (tl cur : List α) (anchor : Option Int),
      durInv tsOf maxDurSec cur anchor →
      ∀ c ∈ splitByDurationAux tsOf maxDurSec tl cur anchor,
        durBounded tsOf maxDurSec c := by
  intro tl
  induction tl with
  | nil =>
    intro cur anchor hinv c hc
    simp only [splitByDurationAux] at hc
    split at hc
    · simp at hc
    · simp at hc
      subst hc
      exact durInv_emit hinv
  | cons e tl ih =>
    intro cur anchor hinv c hc
    rcases hts : tsOf e with _ | ts
    · simp only [splitByDurationAux, hts] at hc
      refine ih (cur ++ [e]) anchor ?_ c hc
      have hfm : (cur ++ [e]).filterMap tsOf = cur.filterMap tsOf := by
        simp [List.filterMap_append, hts]
      cases anchor with
      | none =>
        have hinv0 : cur.filterMap tsOf = [] := hinv
        show (cur ++ [e]).filterMap tsOf = []
        rw [hfm, hinv0]
      | some a =>
        obtain ⟨h1, h2⟩ := hinv
        exact ⟨by rw [hfm]; exact h1, by rw [hfm]; exact h2⟩
    · cases anchor with
      | none =>
        simp only [splitByDurationAux, hts] at hc
        have hinv0 : cur.filterMap tsOf = [] := hinv
        have hfm : (cur ++ [e]).filterMap tsOf = [ts] := by
          simp [List.filterMap_append, hinv0, hts]
        have hinv2 : durInv tsOf maxDurSec (cur ++ [e]) (some ts) := by
          refine ⟨by rw [hfm]; rfl, ?_⟩
          rw [hfm]
          intro t ht
          simp at ht
          omega
        exact ih (cur ++ [e]) (some ts) hinv2 c hc
      | some a =>
        simp only [splitByDurationAux, hts] at hc
        obtain ⟨h1, h2⟩ := hinv
        have hfe : ([e] : List α).filterMap tsOf = [ts] := by simp [hts]
        have hinv' : durInv tsOf maxDurSec ([e] : List α) (some ts) := by
          refine ⟨by rw [hfe]; rfl, ?_⟩
          rw [hfe]
          intro t ht
          simp at ht
          omega
        have hinvcur : durInv tsOf maxDurSec cur (some a) := ⟨h1, h2⟩
        by_cases hgap : maxDurSec < ts - a
        · rw [if_pos hgap] at hc
          by_cases hemp : cur.isEmpty
          · rw [if_pos hemp] at hc
            exact ih [e] (some ts) hinv' c hc
          · rw [if_neg hemp] at hc
            rcases List.mem_cons.mp hc with rfl | hc
            · exact durInv_emit hinvcur
            · exact ih [e] (some ts) hinv' c hc
        · rw [if_neg hgap] at hc
          have hfm : (cur ++ [e]).filterMap tsOf =
              cur.filterMap tsOf ++ [ts] := by
            simp [List.filterMap_append, hts]
          have hcurne : cur.filterMap tsOf ≠ [] := by
            intro hempf
            rw [hempf] at h1
            simp at h1
          have hinv2 : durInv tsOf maxDurSec (cur ++ [e]) (some a) := by
            refine ⟨?_, ?_⟩
            · rw [hfm]
              rw [List.head?_append_of_ne_nil _ hcurne]
              exact h1
            · rw [hfm]
              intro t ht
              rcases List.mem_append.mp ht with ht | ht
              · exact h2 t ht
              · simp at ht
                omega
          exact ih (cur ++ [e]) (some a) hinv2 c hc

/-- C3: every chunk produced by duration segmentation has span — last
timestamp minus first timestamp, ignoring timestamp-less entries — at
most `maxDurMin * 60` seconds (for a nonnegative ceiling); a chunk with
no timestamped entry is exempt (`durBounded` is vacuous there). -/
theorem split_entries_by_max_duration_spec (tsOf : α → Option Int)
    (maxDurMin : Int) (entries : List α) (hnn : 0 ≤ maxDurMin) :
    ∀ c ∈ split_entries_by_max_duration tsOf maxDurMin entries,
      durBounded tsOf (maxDurMin * 60) c := by
  intro c hc
  cases entries with
  | nil => simp [split_entries_by_max_duration] at hc
  | cons e tl =>
    refine splitByDurationAux_spec tsOf (maxDurMin * 60)
      (by omega) (e :: tl) [] none (by simp [durInv]) c ?_
    simpa [split_entries_by_max_duration] using hc

/-- C3 witness: samples at seconds 0, 100 and 400 with a five-minute
ceiling split into `[[0, 100], [400]]`; the first chunk's span (100)
is within the 300-second ceiling. -/
theorem split_entries_by_max_duration_witness :
    (split_entries_by_max_duration (fun x : Option Int => x) 5
        [some 0, some 100, some 400] = [[some 0, some 100], [some 400]]) ∧
    (([some 0, some 100].filterMap (fun x : Option Int => x)).getLast
        (by decide) -
      ([some 0, some 100].filterMap (fun x : Option Int => x)).head
        (by decide) ≤ 5 * 60) := by
  refine ⟨by decide, ?_⟩
  refine split_entries_by_max_duration_spec (fun x : Option Int => x) 5
    [some 0, some 100, some 400] (by decide) [some 0, some 100]
    (by decide) (by decide)

theorem spikeValues_enumFrom_map (entries : List VmEntry) : ∀ n,
    ((entries.enumFrom n).filterMap (fun p =>
        match p.2.metricVal with
        | some v => some (p.1, v, p.2.timestamp)
        | none => none)).map (fun t => t.2.1) =
      entries.filterMap (·.metricVal) := by
  induction entries with
  | nil => intro n; rfl
  | cons e tl ih =>
    intro n
    have ih' := ih (n + 1)
    rcases hm : e.metricVal with _ | v <;>
      simp [List.enumFrom_cons, List.filterMap_cons, hm, ih']

theorem spikeValues_map (entries : List VmEntry) :
    (spikeValues entries).map (fun t => t.2.1) = metricValuesOf entries := by
  have := spikeValues_enumFrom_map entries 0
  simpa [spikeValues, metricValuesOf, List.enum] using this

theorem mem_spikeValues_iff (entries : List VmEntry) (i : Nat) (v : Rat)
    (ts : Option Int) :
    (i, v, ts) ∈ spikeValues entries ↔
      ∃ en, entries[i]? = some en ∧ en.metricVal = some v ∧
        en.timestamp = ts := by
  unfold spikeValues
  rw [List.mem_filterMap]
  constructor
  · rintro ⟨⟨j, en⟩, hp, hpick⟩
    rcases hm : en.metricVal with _ | w
    · rw [hm] at hpick; simp at hpick
    · rw [hm] at hpick
      simp only [Option.some.injEq, Prod.mk.injEq] at hpick
      obtain ⟨hj, hv, hts⟩ := hpick
      have hget := (List.mk_mem_enum_iff_getElem?).mp hp
      exact ⟨en, by rw [← hj]; exact hget, by rw [hm, hv], hts⟩
  · rintro ⟨en, hen, hv, hts⟩
    refine ⟨(i, en), (List.mk_mem_enum_iff_getElem?).mpr hen, ?_⟩
    rw [hv, hts]

/-- C5: spike detection returns `[]` whenever fewer than 10 entries carry
the metric or the standard deviation of the metric values is zero;
otherwise a spike record is emitted exactly for the entries whose value
exceeds `mean + k·stdev` or falls below `mean - k·stdev`, carrying its
deviation in stdev units and direction `high` when above the mean, else
`low`. -/
theorem detect_spikes_spec (stdev : List Rat → Rat) (k : Rat)
    (entries : List VmEntry) :
    ((metricValuesOf entries).length < 10 →
      detect_spikes stdev k entries = []) ∧
    (stdev (metricValuesOf entries) = 0 →
      detect_spikes stdev k entries = []) ∧
    (10 ≤ (metricValuesOf entries).length →
      stdev (metricValuesOf entries) ≠ 0 →
      ∀ sp : Spike,
        sp ∈ detect_spikes stdev k entries ↔
          ((∃ en, entries[sp.index]? = some en ∧
              en.metricVal = some sp.value ∧ en.timestamp = sp.timestamp) ∧
           (pymean (metricValuesOf entries) +
              k * stdev (metricValuesOf entries) < sp.value ∨
            sp.value < pymean (metricValuesOf entries) -
              k * stdev (metricValuesOf entries)) ∧
           sp.spMean = pymean (metricValuesOf entries) ∧
           sp.deviation = |sp.value - pymean (metricValuesOf entries)| /
              stdev (metricValuesOf entries) ∧
           sp.direction = (if pymean (metricValuesOf entries) < sp.value
              then "high" else "low"))) := by
  have hmap := spikeValues_map entries
  have hlen : (spikeValues entries).length =
      (metricValuesOf entries).length := by
    rw [← hmap, List.length_map]
  have hs2 : (10 ≤ (metricValuesOf entries).length) →
      (if 2 ≤ ((spikeValues entries).map (fun t => t.2.1)).length then
        stdev ((spikeValues entries).map (fun t => t.2.1)) else 0) =
      stdev (metricValuesOf entries) := by
    intro hge
    rw [if_pos (by rw [List.length_map]; omega), hmap]
  refine ⟨?_, ?_, ?_⟩
  · intro h
    simp only [detect_spikes]
    rw [if_pos (by rw [hlen]; exact h)]
  · intro h
    by_cases hl : (spikeValues entries).length < 10
    · simp only [detect_spikes]
      rw [if_pos hl]
    · simp only [detect_spikes]
      rw [if_neg hl, hs2 (by omega), if_pos h]
  · intro hge hnz sp
    have hl : ¬ (spikeValues entries).length < 10 := by omega
    simp only [detect_spikes]
    rw [if_neg hl, hs2 hge, if_neg hnz, hmap]
    rw [List.mem_filterMap]
    constructor
    · rintro ⟨⟨i, v, ts⟩, ht, hsp⟩
      split at hsp
      · rename_i hcond
        obtain rfl : sp = _ := (Option.some.inj hsp).symm
        refine ⟨(mem_spikeValues_iff entries i v ts).mp ht, hcond, rfl, ?_, rfl⟩
        simp [hnz]
      · simp at hsp
    · rintro ⟨⟨en, hen, hv, hts⟩, hcond, hmean, hdev, hdir⟩
      rcases sp with ⟨i, ts, v, m, d, dir⟩
      simp only at hen hv hts hcond hmean hdev hdir
      refine ⟨(i, v, ts), (mem_spikeValues_iff entries i v ts).mpr
        ⟨en, hen, hv, hts⟩, ?_⟩
      rw [if_pos hcond]
      simp [hnz, hmean, hdev, hdir]

/-- The sample list of the C5 witness: eleven entries of value 1 and one
entry of value 100, all carrying the metric. -/
def spikeWitnessEntries : List VmEntry :=
  List.replicate 11 ⟨some 1, none⟩ ++ [⟨some 100, none⟩]

/-- C5 witness: twelve samples, eleven of value 1 and one of value 100,
with a stdev function reporting 2 and threshold 2: the sample of value
100 (index 11) is reported as a spike with direction `high`. -/
theorem detect_spikes_spec_witness :
    (⟨11, none, 100, pymean (metricValuesOf spikeWitnessEntries),
       |(100 : Rat) - pymean (metricValuesOf spikeWitnessEntries)| / 2,
       if pymean (metricValuesOf spikeWitnessEntries) < (100 : Rat)
         then "high" else "low"⟩ : Spike) ∈
      detect_spikes (fun _ => 2) 2 spikeWitnessEntries := by
  have hv : metricValuesOf spikeWitnessEntries =
      List.replicate 11 (1 : Rat) ++ [100] := by decide
  have hm : pymean (metricValuesOf spikeWitnessEntries) = 111 / 12 := by
    rw [hv]
    simp [pymean, List.sum_append, List.sum_replicate, nsmul_eq_mul]
    norm_num
  refine ((detect_spikes_spec (fun _ => 2) 2 spikeWitnessEntries).2.2
      (by decide) ?_
      (⟨11, none, 100, pymean (metricValuesOf spikeWitnessEntries),
        |(100 : Rat) - pymean (metricValuesOf spikeWitnessEntries)| / 2,
        if pymean (metricValuesOf spikeWitnessEntries) < (100 : Rat)
          then "high" else "low"⟩ : Spike)).mpr
    ⟨⟨⟨some 100, none⟩, by decide, rfl, rfl⟩, ?_, rfl, rfl, rfl⟩
  · show (2 : Rat) ≠ 0
    norm_num
  · left
    show pymean (metricValuesOf spikeWitnessEntries) + 2 * 2 < 100
    rw [hm]
    norm_num

theorem segment_errors_filter_mem (errors : List ErrorRec)
    (segStart segEnd : Int) (e : ErrorRec) :
    e ∈ segment_errors_filter errors segStart segEnd ↔
      e ∈ errors ∧ 3 ≤ e.severity ∧
      ∃ t, e.timestamp = some t ∧ segStart - 30 ≤ t ∧ t ≤ segEnd + 30 := by
  unfold segment_errors_filter
  rw [List.mem_filter]
  constructor
  · rintro ⟨he, hb⟩
    rcases ht : e.timestamp with _ | t
    · rw [ht] at hb; simp at hb
    · rw [ht] at hb
      simp only [Bool.and_eq_true, decide_eq_true_eq] at hb
      exact ⟨he, hb.1, t, rfl, hb.2.1, hb.2.2⟩
  · rintro ⟨he, hsev, t, ht, h1, h2⟩
    refine ⟨he, ?_⟩
    rw [ht]
    simp [hsev, h1, h2]

/-- C6 (amended): the per-segment error overlay keeps an error iff its
severity is at least 3 and it has an absolute timestamp within the
segment window extended by the 30-second buffer; the vmlog event mapping
keeps an event iff it has an absolute timestamp within the vmlog range
extended by the 300-second buffer.  Events and errors with no absolute
timestamp are never kept. -/
theorem event_segment_filter_spec (errors : List ErrorRec)
    (segStart segEnd : Int) (events : List SysEvent)
    (vmlogEntries : List (Option Int)) (lo hi : Int)
    (hve : vmlogEntries ≠ []) (hev : events ≠ [])
    (hlo : (vmlogEntries.filterMap id).min? = some lo)
    (hhi : (vmlogEntries.filterMap id).max? = some hi) :
    (∀ e : ErrorRec, e ∈ segment_errors_filter errors segStart segEnd ↔
      e ∈ errors ∧ 3 ≤ e.severity ∧
      ∃ t, e.timestamp = some t ∧ segStart - 30 ≤ t ∧ t ≤ segEnd + 30) ∧
    (∀ ev : SysEvent, ev ∈ map_to_vmlog_timeline events vmlogEntries ↔
      ev ∈ events ∧
      ∃ t, ev.timestamp = some t ∧ lo - 300 ≤ t ∧ t ≤ hi + 300) := by
  refine ⟨fun e => segment_errors_filter_mem errors segStart segEnd e, ?_⟩
  intro ev
  unfold map_to_vmlog_timeline
  have hb : (vmlogEntries.isEmpty || events.isEmpty) = false := by
    simp [List.isEmpty_eq_false.mpr hve, List.isEmpty_eq_false.mpr hev]
  have hne : (vmlogEntries.filterMap id).isEmpty = false := by
    rcases hfe : vmlogEntries.filterMap id with _ | ⟨x, xs⟩
    · rw [hfe] at hlo
      simp at hlo
    · simp
  simp only [hb, Bool.false_eq_true, if_false, hne, hlo, hhi]
  rw [List.mem_filter]
  constructor
  · rintro ⟨he, hf⟩
    rcases ht : ev.timestamp with _ | t
    · rw [ht] at hf; simp at hf
    · rw [ht] at hf
      simp only [Bool.and_eq_true, decide_eq_true_eq] at hf
      exact ⟨he, t, rfl, hf.1, hf.2⟩
  · rintro ⟨he, t, ht, h1, h2⟩
    refine ⟨he, ?_⟩
    rw [ht]
    simp [h1, h2]

/-- C6 witness: the documented scenario — an event at second 448 of its
hour, vmlog range seconds 447 to 451, five-minute buffer — the event is
kept by the mapping. -/
theorem event_segment_filter_spec_witness :
    (⟨some 448, "LID", 3, "m"⟩ : SysEvent) ∈
      map_to_vmlog_timeline [⟨some 448, "LID", 3, "m"⟩]
        [some 447, some 451] :=
  ((event_segment_filter_spec [] 0 0 [⟨some 448, "LID", 3, "m"⟩]
      [some 447, some 451] 447 451 (by decide) (by decide) (by decide)
      (by decide)).2 ⟨some 448, "LID", 3, "m"⟩).mpr
    ⟨by decide, 448, rfl, by decide, by decide⟩

/-- C6 counterexample: an error with severity 2 and timestamp 100 lies
inside the window `[90 - 30, 110 + 30]`, yet the per-segment filter of
`main` drops it, because that filter also requires severity at least 3 —
contradicting the claim that timestamp membership alone decides
inclusion. -/
theorem event_segment_filter_claim_cex :
    ((90 : Int) - 30 ≤ (100 : Int) ∧ (100 : Int) ≤ (110 : Int) + 30) ∧
    (⟨"messages", 1, 2, "WARNING", some 100, "m"⟩ : ErrorRec) ∉
      segment_errors_filter
        [⟨"messages", 1, 2, "WARNING", some 100, "m"⟩] 90 110 := by
  decide

/-- C8 (amended): event classification emits at most one event per line
(it returns an `Option`), and the event's category and severity come
from the first triple, in declared pattern order, whose level is at
least the configured minimum AND whose pattern matches the message.
(Without the level filter — e.g. `min_level = 1`, or
`ErrorDetector._scan_single_log`, which has no filter — this is exactly
first-match-wins.) -/
theorem categorize_event_spec (min_level : Nat)
    (patterns : List PatternTriple) (ts : Option Int) (msg : String) :
    categorize_event min_level patterns ts msg =
      (patterns.find? (fun p =>
          decide (min_level ≤ p.level) && p.matcher msg)).map
        (fun p => { timestamp := ts, category := p.category,
                    level := p.level,
                    message := truncate_message 100 msg }) := by
  induction patterns with
  | nil => rfl
  | cons p rest ih =>
    simp only [categorize_event]
    by_cases h1 : p.level < min_level
    · have hf : (decide (min_level ≤ p.level) && p.matcher msg) = false := by
        simp [Nat.not_le.mpr h1]
      rw [if_pos h1, ih, List.find?_cons, hf]
    · by_cases h2 : p.matcher msg
      · have hf : (decide (min_level ≤ p.level) && p.matcher msg) = true := by
          simp [Nat.le_of_not_lt h1, h2]
        rw [if_neg h1, if_pos h2, List.find?_cons, hf]
        rfl
      · have hf : (decide (min_level ≤ p.level) && p.matcher msg) = false := by
          simp [h2]
        rw [if_neg h1, if_neg h2, ih, List.find?_cons, hf]

/-- C8 counterexample: with the parser's default `min_level = 2` and the
powerd dialect order (BACKLIGHT, level 1, before BATTERY, level 2), a
line matching both emits a BATTERY event even though the first matching
triple in declared order is BACKLIGHT — so the first-matching-triple
claim fails as stated. -/
theorem categorize_event_claim_cex :
    ((fun m : String => decide ("brightness".toList <:+: m.toList))
        "brightness set for battery percent" = true) ∧
    categorize_event 2
      [⟨fun m => decide ("brightness".toList <:+: m.toList),
        "BACKLIGHT", 1, "rgb(255, 220, 100)"⟩,
       ⟨fun m => decide ("battery percent".toList <:+: m.toList),
        "BATTERY", 2, "rgb(63, 185, 80)"⟩]
      none "brightness set for battery percent" =
      some ⟨none, "BATTERY", 2, "brightness set for battery percent"⟩ := by
  constructor
  · decide
  · decide

theorem parseContentAux_spec (classify : String → Option SysEvent) :
    ∀ (lines : List String) (seen : List (Option Int × String)),
      ((parseContentAux classify lines seen).map event_key).Nodup ∧
      (∀ ev ∈ parseContentAux classify lines seen, event_key ev ∉ seen) ∧
      (∀ ev ∈ parseContentAux classify lines seen,
        ∃ l ∈ lines, classify l = some ev) := by
  intro lines
  induction lines with
  | nil =>
    intro seen
    refine ⟨by simp [parseContentAux], by simp [parseContentAux],
      by simp [parseContentAux]⟩
  | cons line rest ih =>
    intro seen
    rcases hcl : classify line with _ | ev
    · have h := ih seen
      simp only [parseContentAux, hcl]
      refine ⟨h.1, h.2.1, ?_⟩
      intro e he
      obtain ⟨l, hl, hcl2⟩ := h.2.2 e he
      exact ⟨l, List.mem_cons_of_mem _ hl, hcl2⟩
    · by_cases hk : event_key ev ∈ seen
      · have h := ih seen
        simp only [parseContentAux, hcl, if_pos hk]
        refine ⟨h.1, h.2.1, ?_⟩
        intro e he
        obtain ⟨l, hl, hcl2⟩ := h.2.2 e he
        exact ⟨l, List.mem_cons_of_mem _ hl, hcl2⟩
      · have h := ih (event_key ev :: seen)
        simp only [parseContentAux, hcl, if_neg hk]
        refine ⟨?_, ?_, ?_⟩
        · rw [List.map_cons, List.nodup_cons]
          refine ⟨?_, h.1⟩
          intro hmem
          obtain ⟨e, he, hkey⟩ := List.mem_map.mp hmem
          exact (h.2.1 e he) (by rw [hkey]; exact List.mem_cons_self _ _)
        · intro e he
          rcases List.mem_cons.mp he with rfl | he
          · exact hk
          · intro hin
            exact (h.2.1 e he) (List.mem_cons_of_mem _ hin)
        · intro e he
          rcases List.mem_cons.mp he with rfl | he
          · exact ⟨line, List.mem_cons_self _ _, hcl⟩
          · obtain ⟨l, hl, hcl2⟩ := h.2.2 e he
            exact ⟨l, List.mem_cons_of_mem _ hl, hcl2⟩

/-- C9: within one parse call the emitted event list has pairwise
distinct dedup keys `(timestamp-or-none, message)` — so a line whose
event matches an already emitted key adds nothing — every emitted event
is the classification of some input line, and classification
(`categorize_event`) truncates the message to the dialect bound before
the event is stored, hence before its key is formed. -/
theorem parse_content_spec (classify : String → Option SysEvent)
    (lines : List String) :
    ((parse_content classify lines).map event_key).Nodup ∧
    (∀ ev ∈ parse_content classify lines,
      ∃ l ∈ lines, classify l = some ev) ∧
    (∀ (min_level : Nat) (patterns : List PatternTriple)
        (ts : Option Int) (msg : String) (ev : SysEvent),
      categorize_event min_level patterns ts msg = some ev →
      ev.message = truncate_message 100 msg) := by
  refine ⟨(parseContentAux_spec classify lines []).1,
    (parseContentAux_spec classify lines []).2.2, ?_⟩
  intro min_level patterns ts msg ev h
  induction patterns with
  | nil => simp [categorize_event] at h
  | cons p rest ih =>
    simp only [categorize_event] at h
    split_ifs at h with h1 h2
    · exact ih h
    · have := Option.some.inj h
      rw [← this]
    · exact ih h

/-- C10: the error list returned by `scan_logs` is ascending in
timestamp, and every error lacking a timestamp comes after all errors
that have one. -/
theorem scan_logs_sorted (scanSingle : String → String → List ErrorRec)
    (logs : List (String × String)) :
    (scan_logs scanSingle logs).Pairwise (fun a b =>
      (∀ x y, a.timestamp = some x → b.timestamp = some y → x ≤ y) ∧
      (a.timestamp = none → b.timestamp = none)) := by
  have htrans : ∀ a b c : ErrorRec, err_le a b → err_le b c → err_le a c := by
    intro a b c hab hbc
    unfold err_le at *
    rcases ha : a.timestamp with _ | x <;> rcases hb : b.timestamp with _ | y <;>
      rcases hc : c.timestamp with _ | z <;> simp_all <;> omega
  have htotal : ∀ a b : ErrorRec, err_le a b || err_le b a := by
    intro a b
    unfold err_le
    rcases ha : a.timestamp with _ | x <;> rcases hb : b.timestamp with _ | y <;>
      simp <;> omega
  have hs := @List.sorted_mergeSort ErrorRec err_le htrans htotal
    ((logs.map (fun p => scanSingle p.1 p.2)).flatten)
  unfold scan_logs
  refine hs.imp ?_
  intro a b hab
  constructor
  · intro x y hx hy
    unfold err_le at hab
    rw [hx, hy] at hab
    simpa using hab
  · intro hnone
    unfold err_le at hab
    rw [hnone] at hab
    rcases hb : b.timestamp with _ | y
    · rfl
    · rw [hb] at hab
      simp at hab


/-- C7: for every valid compact bracketed timestamp `[MMDD/HHMMSS]` and
reference year `y` accepted by the `datetime` constructor, extraction
returns the timestamp whose month, day, hour, minute and second are the
numeric values of the corresponding digit fields and whose year is
`y`. -/
theorem vmlog_parse_timestamp_spec (y : Nat)
    (a b c d e f g h i j : Char) (rest : List Char)
    (ha : a.isDigit = true) (hb : b.isDigit = true) (hc : c.isDigit = true)
    (hd : d.isDigit = true) (he : e.isDigit = true) (hf : f.isDigit = true)
    (hg : g.isDigit = true) (hh : h.isDigit = true) (hi : i.isDigit = true)
    (hj : j.isDigit = true)
    (hvalid : datetime_valid y (digitsToNat [a, b]) (digitsToNat [c, d])
      (digitsToNat [e, f]) (digitsToNat [g, h])
      (digitsToNat [i, j]) = true) :
    vmlog_parse_timestamp y
        ('[' :: a :: b :: c :: d :: '/' :: e :: f :: g :: h :: i :: j ::
          ']' :: rest) =
      some ⟨y, digitsToNat [a, b], digitsToNat [c, d], digitsToNat [e, f],
        digitsToNat [g, h], digitsToNat [i, j]⟩ := by
  unfold vmlog_parse_timestamp vmlog_match parse_vmlog_fields datetime_mk
  simp [ha, hb, hc, hd, he, hf, hg, hh, hi, hj, hvalid, Except.map]

/-- C7 witness: `[1027/151447]` with reference year 2025 parses to
October 27, 15:14:47, 2025. -/
theorem vmlog_parse_timestamp_spec_witness :
    vmlog_parse_timestamp 2025 ("[1027/151447]".toList) =
      some ⟨2025, digitsToNat ['1', '0'], digitsToNat ['2', '7'],
        digitsToNat ['1', '5'], digitsToNat ['1', '4'],
        digitsToNat ['4', '7']⟩ := by
  have hl : "[1027/151447]".toList =
      '[' :: '1' :: '0' :: '2' :: '7' :: '/' :: '1' :: '5' :: '1' :: '4' ::
        '4' :: '7' :: ']' :: [] := by decide
  rw [hl]
  exact vmlog_parse_timestamp_spec 2025 '1' '0' '2' '7' '1' '5' '1' '4' '4'
    '7' [] (by decide) (by decide) (by decide) (by decide) (by decide)
    (by decide) (by decide) (by decide) (by decide) (by decide) (by decide)

/-- C4: on a line where neither the ISO nor the syslog pattern matches
anywhere and the bracketed boot-uptime pattern does (in each parser's
own form), timestamp extraction returns `none` in both `ErrorDetector`
and `CrosEcParser` — never an absolute or fabricated time; extraction is
a total function by construction, so no exception reaches the
caller. -/
theorem extract_timestamp_boot_uptime (y : Nat) (line : List Char)
    (hiso : searchPos (matchShapeAt isoShape) line = none)
    (hsys : searchPos syslogMatchAt line = none)
    (hked : searchBool kernelMatchAt line = true)
    (hkec : searchBool kernelUptimeMatchAt line = true) :
    ed_extract_timestamp y line = none ∧
    cros_ec_extract_timestamp y line = none := by
  constructor
  · unfold ed_extract_timestamp ed_try_syslog ed_try_kernel
    simp [hiso, hsys, hked]
  · unfold cros_ec_extract_timestamp ec_try_syslog ec_try_kernel_uptime
    simp [hiso, hsys, hkec]

/-- C4 witness: the boot-uptime line `[27268.556000] Task timeout
detected` yields no timestamp from either extractor. -/
theorem extract_timestamp_boot_uptime_witness :
    ed_extract_timestamp 2025
        ("[27268.556000] Task timeout detected".toList) = none ∧
    cros_ec_extract_timestamp 2025
        ("[27268.556000] Task timeout detected".toList) = none :=
  extract_timestamp_boot_uptime 2025 _ (by decide) (by decide) (by decide)
    (by decide)

end LogParser
